import Mathlib

deriving instance DecidableEq for Except

/-!
Shallow embedding of the task-graph engine in `src/speculate/graph_engine.py`
(plus the relationship-deletion count computed around the engine call in
`src/speculate/cli.py`, `delete` subcommand).

Modelling conventions:
* Python `dict` (insertion-ordered, unique keys) is an association list
  `List (String × α)`; `d[k] = v` replaces the existing entry in place or
  appends a fresh one, `del d[k]` removes the entry, iteration is list order.
* Python `set` is a list queried only through membership; `set.add` is `cons`
  or append (duplicates are irrelevant to membership).
* Python exceptions are explicit `Except`/`Option` results; for the in-place
  mutating `update_task`, the pair `TaskGraph × Option PyErr` records the
  (possibly partially mutated) store together with the raised exception.
* JSON numbers are rationals (`ℚ`); JSON `null` for the optional
  `estimate_hours` is `Option.none`.
* Recursive traversals (`detect_cycles`, `get_downstream_tasks`) take a fuel
  argument large enough that it is never exhausted on the runs the theorems
  talk about (the BFS fuel is proved sufficient for every store).
-/

namespace Speculate

/-- Enumeration TaskStatus (graph_engine.py lines 15-18). -/
inductive TaskStatus
  | pending
  | in_progress
  | done
deriving DecidableEq

/-- Value of a TaskStatus member, as in Python `status.value`. -/
def TaskStatus.value : TaskStatus → String
  | .pending => "pending"
  | .in_progress => "in_progress"
  | .done => "done"

/-- Python `TaskStatus(s)`: `some` the member with that value, `none` models the
`ValueError` raised on an unknown string. -/
def TaskStatus.ofString : String → Option TaskStatus
  | "pending" => some .pending
  | "in_progress" => some .in_progress
  | "done" => some .done
  | _ => none

/-- Enumeration RelationType (graph_engine.py lines 21-24). -/
inductive RelationType
  | blocks
  | relates_to
  | part_of
deriving DecidableEq

/-- Value of a RelationType member. -/
def RelationType.value : RelationType → String
  | .blocks => "blocks"
  | .relates_to => "relates_to"
  | .part_of => "part_of"

/-- Python `RelationType(s)`; `none` models the `ValueError` on unknown strings. -/
def RelationType.ofString : String → Option RelationType
  | "blocks" => some .blocks
  | "relates_to" => some .relates_to
  | "part_of" => some .part_of
  | _ => none

/-- One checklist entry `{"item": str, "done": bool}` (graph_engine.py line 34). -/
structure ChecklistItem where
  item : String
  done : Bool
deriving DecidableEq

/-- Dataclass Task (graph_engine.py lines 27-66), with the dataclass defaults. -/
structure Task where
  id : String
  description : String := ""
  status : TaskStatus := .pending
  acceptance_criteria : List String := []
  checklist : List ChecklistItem := []
  estimate_hours : Option ℚ := none
deriving DecidableEq

/-- Method Task.is_complete (graph_engine.py lines 37-38). -/
def Task.is_complete (t : Task) : Bool :=
  t.status == TaskStatus.done

/-- Dataclass Relationship (graph_engine.py lines 69-89). -/
structure Relationship where
  from_task : String
  to_task : String
  relation_type : RelationType
deriving DecidableEq

/-- Exceptions raised by the engine.  The Python code raises `ValueError` (or
`KeyError`) with distinct messages; the spec names them `InvalidId`,
`DuplicateId`, `NotFound`, `InvalidStatus`, and we keep `KeyError` for the
unguarded `self.nodes[...]` lookup in `get_blocking_dependencies`. -/
inductive PyErr
  | invalidId
  | duplicateId
  | notFound
  | invalidStatus
  | keyError
deriving DecidableEq

/-- Lookup `d[k]` / `d.get(k)` in an insertion-ordered dict modelled as an
association list: the value at the (unique) matching key. -/
def dictGet {α : Type} : List (String × α) → String → Option α
  | [], _ => none
  | p :: rest, k => if p.1 == k then some p.2 else dictGet rest k

/-- Membership test `k in d`. -/
def dictMem {α : Type} (m : List (String × α)) (k : String) : Bool :=
  (dictGet m k).isSome

/-- Assignment `d[k] = v`: replace the entry in place when the key is present,
append a fresh entry otherwise. -/
def dictSet {α : Type} : List (String × α) → String → α → List (String × α)
  | [], k, v => [(k, v)]
  | p :: rest, k, v => if p.1 == k then (k, v) :: rest else p :: dictSet rest k v

/-- Deletion `del d[k]`: drop the entry with that key. -/
def dictDel {α : Type} (m : List (String × α)) (k : String) : List (String × α) :=
  m.filter (fun p => !(p.1 == k))

/-- ASCII case folding of one character, as Python `str.lower` acts on the
ASCII range (the identifiers the engine handles are ASCII). -/
def pyLowerChar (c : Char) : Char :=
  if 'A' ≤ c && c ≤ 'Z' then Char.ofNat (c.toNat + 32) else c

/-- Python `task_id.split('-')` on the character list of the string: splitting
on every hyphen, keeping empty segments, with `[""]` for the empty string. -/
def splitOnDash : List Char → List (List Char)
  | [] => [[]]
  | c :: rest =>
    if c = '-' then [] :: splitOnDash rest
    else
      match splitOnDash rest with
      | [] => [[c]]
      | w :: ws => (c :: w) :: ws

/-- Character class `[a-z0-9]` of the kebab-case regex. -/
def isKebabChar (c : Char) : Bool :=
  ('a' ≤ c && c ≤ 'z') || ('0' ≤ c && c ≤ '9')

/-- Body of the regex `^[a-z0-9]+(-[a-z0-9]+)*$`: every hyphen-separated
segment is a nonempty run of `[a-z0-9]` characters. -/
def kebabCore (cs : List Char) : Bool :=
  (splitOnDash cs).all (fun w => !w.isEmpty && w.all isKebabChar)

/-- Python `re.match(r'^[a-z0-9]+(-[a-z0-9]+)*$', s)` is a match: the regex
body matches the whole string, or (a quirk of Python's `$`) the whole string
minus one trailing newline. -/
def pyKebabMatch (cs : List Char) : Bool :=
  kebabCore cs || (cs.getLast? == some '\n' && kebabCore cs.dropLast)

/-- Branch labels of validate_task_id; the Python function returns an
f-string error message per branch, which carries no further logic. -/
inductive IdError
  | notLowercase
  | hasSpaces
  | notKebabCase
  | tooManyWords
deriving DecidableEq

/-- Function validate_task_id (graph_engine.py lines 92-118): uppercase check,
space check, kebab-case regex, then the at-most-4-words check on the
hyphen-split segments. -/
def validate_task_id (task_id : String) : Bool × Option IdError :=
  let cs := task_id.toList
  if !(cs.map pyLowerChar == cs) then (false, some .notLowercase)
  else if ' ' ∈ cs then (false, some .hasSpaces)
  else if !pyKebabMatch cs then (false, some .notKebabCase)
  else if (splitOnDash cs).length > 4 then (false, some .tooManyWords)
  else (true, none)

/-- Class TaskGraph (graph_engine.py lines 121-126): the ordered task dict and
the ordered relationship list. -/
structure TaskGraph where
  nodes : List (String × Task)
  edges : List Relationship
deriving DecidableEq

/-- The fresh graph built by `TaskGraph.__init__`. -/
def TaskGraph.empty : TaskGraph :=
  ⟨[], []⟩

/-- Method TaskGraph.add_task (graph_engine.py lines 128-138). -/
def add_task (g : TaskGraph) (task : Task) : Except PyErr TaskGraph :=
  if !(validate_task_id task.id).1 then .error .invalidId
  else if dictMem g.nodes task.id then .error .duplicateId
  else .ok { g with nodes := dictSet g.nodes task.id task }

/-- One `key=value` entry of the `**updates` payload of update_task.  A
`status` key carries either a raw string (converted through `TaskStatus`, which
can raise) or an enum member (assigned as-is, the way cli.py's `start` /
`complete` call it); every other Task attribute carries a value of its own
type; `unknownKey` stands for any key that is not a Task attribute, which
`hasattr` silently drops. -/
inductive UpdateEntry
  | id (v : String)
  | description (v : String)
  | statusStr (v : String)
  | statusEnum (v : TaskStatus)
  | acceptance_criteria (v : List String)
  | checklist (v : List ChecklistItem)
  | estimate_hours (v : Option ℚ)
  | unknownKey (k : String)
deriving DecidableEq

/-- One iteration of the `for key, value in updates.items()` loop of
update_task: convert a string-valued `status` through `TaskStatus` (possibly
raising), then `setattr` when the key is a Task attribute. -/
def applyUpdate (t : Task) : UpdateEntry → Except PyErr Task
  | .id v => .ok { t with id := v }
  | .description v => .ok { t with description := v }
  | .statusStr v =>
    match TaskStatus.ofString v with
    | some st => .ok { t with status := st }
    | none => .error .invalidStatus
  | .statusEnum v => .ok { t with status := v }
  | .acceptance_criteria v => .ok { t with acceptance_criteria := v }
  | .checklist v => .ok { t with checklist := v }
  | .estimate_hours v => .ok { t with estimate_hours := v }
  | .unknownKey _ => .ok t

/-- The whole update loop: entries are applied left to right, mutating the
task in place; a raise stops the loop and keeps the fields already applied. -/
def applyUpdates (t : Task) : List UpdateEntry → Task × Option PyErr
  | [] => (t, none)
  | u :: rest =>
    match applyUpdate t u with
    | .ok t' => applyUpdates t' rest
    | .error e => (t, some e)

/-- Method TaskGraph.update_task (graph_engine.py lines 140-150).  The result
pairs the store after the call with the exception raised, if any; because the
Python loop mutates the stored Task object directly, the store reflects the
entries applied before a raise. -/
def update_task (g : TaskGraph) (task_id : String) (updates : List UpdateEntry) :
    TaskGraph × Option PyErr :=
  match dictGet g.nodes task_id with
  | none => (g, some .notFound)
  | some t =>
    let r := applyUpdates t updates
    ({ g with nodes := dictSet g.nodes task_id r.1 }, r.2)

/-- Method TaskGraph.delete_task (graph_engine.py lines 152-161): drop the node
if present, then filter out every edge touching the id. -/
def delete_task (g : TaskGraph) (task_id : String) : TaskGraph :=
  { nodes := dictDel g.nodes task_id,
    edges := g.edges.filter (fun e => !(e.from_task == task_id) && !(e.to_task == task_id)) }

/-- Method TaskGraph.add_relationship (graph_engine.py lines 163-175). -/
def add_relationship (g : TaskGraph) (from_id to_id : String) (rel_type : RelationType) :
    Except PyErr TaskGraph :=
  if !dictMem g.nodes from_id then .error .notFound
  else if !dictMem g.nodes to_id then .error .notFound
  else if g.edges.any (fun r => r.from_task == from_id && r.to_task == to_id && r.relation_type == rel_type)
    then .ok g
  else .ok { g with edges := g.edges ++ [⟨from_id, to_id, rel_type⟩] }

/-- Method TaskGraph.delete_relationship (graph_engine.py lines 177-189); a
supplied `rel_type` (enum members are truthy) filters on the full triple, an
omitted one on the endpoint pair. -/
def delete_relationship (g : TaskGraph) (from_id to_id : String) (rel_type : Option RelationType) :
    TaskGraph :=
  match rel_type with
  | some ty =>
    let kept := g.edges.filter
      (fun e => !(e.from_task == from_id && e.to_task == to_id && e.relation_type == ty))
    { g with edges := kept }
  | none =>
    let kept := g.edges.filter
      (fun e => !(e.from_task == from_id && e.to_task == to_id))
    { g with edges := kept }

/-- The removed-edge count the CLI reports for one relationship deletion
(cli.py lines 327-330): edge count before the call minus edge count after. -/
def delete_relationship_count (g : TaskGraph) (from_id to_id : String)
    (rel_type : Option RelationType) : Nat :=
  g.edges.length - (delete_relationship g from_id to_id rel_type).edges.length

/-- Predicate an edge deleted by `delete_relationship from_id to_id rel_type`
satisfies: endpoints match, and the type matches when one was supplied. -/
def relMatch (from_id to_id : String) (rel_type : Option RelationType) (e : Relationship) : Bool :=
  e.from_task == from_id && e.to_task == to_id &&
    (match rel_type with
     | some ty => e.relation_type == ty
     | none => true)

/-- Method TaskGraph.get_blocking_dependencies (graph_engine.py lines 191-197)
as a recursion over the edge list: collect `self.nodes[rel.from_task]` for the
`blocks` edges targeting the task; the unguarded dict lookup raises `KeyError`
when an edge source is a dangling id. -/
def blockersAux (nodes : List (String × Task)) (task_id : String) :
    List Relationship → Except PyErr (List Task)
  | [] => .ok []
  | rel :: rest =>
    if rel.to_task == task_id && rel.relation_type == RelationType.blocks then
      match dictGet nodes rel.from_task with
      | some t =>
        match blockersAux nodes task_id rest with
        | .ok l => .ok (t :: l)
        | .error e => .error e
      | none => .error .keyError
    else blockersAux nodes task_id rest

/-- Method TaskGraph.get_blocking_dependencies, entry point. -/
def get_blocking_dependencies (g : TaskGraph) (task_id : String) : Except PyErr (List Task) :=
  blockersAux g.nodes task_id g.edges

/-- Method TaskGraph.is_blocked (graph_engine.py lines 230-233): some blocking
dependency is not complete. -/
def is_blocked (g : TaskGraph) (task_id : String) : Except PyErr Bool :=
  match get_blocking_dependencies g task_id with
  | .ok deps => .ok (deps.any (fun dep => !dep.is_complete))
  | .error e => .error e

/-- The `while queue` loop of get_downstream_tasks (graph_engine.py lines
216-227): pop the queue front; skip it when already visited; otherwise mark it
visited and add every `blocks` successor to the downstream set and the queue. -/
def bfsLoop (edges : List Relationship) :
    Nat → List String → List String → List String → List String
  | 0, _, _, downstream => downstream
  | _ + 1, [], _, downstream => downstream
  | fuel + 1, current :: queue, visited, downstream =>
    if current ∈ visited then
      bfsLoop edges fuel queue visited downstream
    else
      let succ := (edges.filter
        (fun e => e.from_task == current && e.relation_type == RelationType.blocks)).map
          Relationship.to_task
      bfsLoop edges fuel (queue ++ succ) (current :: visited) (downstream ++ succ)

/-- Fuel that provably outlasts the BFS loop on any input (see
`bfsLoop_measure` below). -/
def bfsFuel (edges : List Relationship) : Nat :=
  (edges.length + 1) * (edges.length + 1) + 2

/-- Method TaskGraph.get_downstream_tasks (graph_engine.py lines 207-228); the
returned list is the Python result set, read through membership. -/
def get_downstream_tasks (g : TaskGraph) (task_id : String) : List String :=
  bfsLoop g.edges (bfsFuel g.edges) [task_id] [] []

/-- The mutable state shared by the recursive `dfs` of detect_cycles: the
visited set, the recursion stack, and the cycles collected so far. -/
structure DfsState where
  visited : List String
  rec_stack : List String
  cycles : List (List String)
deriving DecidableEq

/-- The inner `dfs(node, path)` of detect_cycles (graph_engine.py lines
256-272): mark the node visited and on the recursion stack, extend the path,
scan every `blocks` edge out of the node (recursing into unvisited neighbours
with a copy of the path, recording a cycle when a neighbour is on the
recursion stack: the path suffix from the neighbour's first occurrence plus
the neighbour again), then pop the node off the recursion stack. -/
def dfsRun (edges : List Relationship) : Nat → String → List String → DfsState → DfsState
  | 0, _, _, s => s
  | fuel + 1, node, path, s₀ =>
    let path' := path ++ [node]
    let s₁ : DfsState :=
      { s₀ with visited := node :: s₀.visited, rec_stack := node :: s₀.rec_stack }
    let s₂ := edges.foldl (fun s e =>
      if e.from_task == node && e.relation_type == RelationType.blocks then
        if e.to_task ∉ s.visited then
          dfsRun edges fuel e.to_task path' s
        else if e.to_task ∈ s.rec_stack then
          { s with cycles := s.cycles ++ [path'.drop (path'.indexOf e.to_task) ++ [e.to_task]] }
        else s
      else s) s₁
    { s₂ with rec_stack := s₂.rec_stack.erase node }

/-- Fuel for the cycle DFS; the recursion depth is bounded by the number of
distinct ids reachable, which the node and edge counts bound. -/
def dfsFuel (g : TaskGraph) : Nat :=
  g.nodes.length + g.edges.length + 1

/-- Method TaskGraph.detect_cycles (graph_engine.py lines 247-278): run the
DFS from every not-yet-visited task in task-dict order and return the
collected cycles.  The store itself is read, never written. -/
def detect_cycles (g : TaskGraph) : List (List String) :=
  (g.nodes.foldl (fun s p =>
    if p.1 ∈ s.visited then s else dfsRun g.edges (dfsFuel g) p.1 [] s)
    (⟨[], [], []⟩ : DfsState)).cycles

/-- The JSON object Task.to_dict emits (graph_engine.py lines 47-55): every
field is always present, `estimate_hours` as a number or `null`. -/
structure TaskDict where
  id : String
  description : String
  status : String
  acceptance_criteria : List String
  checklist : List ChecklistItem
  estimate_hours : Option ℚ
deriving DecidableEq

/-- Method Task.to_dict. -/
def Task.to_dict (t : Task) : TaskDict :=
  ⟨t.id, t.description, t.status.value, t.acceptance_criteria, t.checklist, t.estimate_hours⟩

/-- Method Task.from_dict (graph_engine.py lines 57-66); the status string goes
through `TaskStatus`, whose `ValueError` aborts deserialization. -/
def Task.from_dict (d : TaskDict) : Option Task :=
  match TaskStatus.ofString d.status with
  | some st =>
    some ⟨d.id, d.description, st, d.acceptance_criteria, d.checklist, d.estimate_hours⟩
  | none => none

/-- The JSON object Relationship.to_dict emits, with keys `from`, `to`,
`type` (graph_engine.py lines 76-81). -/
structure RelDict where
  from_task : String
  to_task : String
  rel_type : String
deriving DecidableEq

/-- Method Relationship.to_dict. -/
def Relationship.to_dict (r : Relationship) : RelDict :=
  ⟨r.from_task, r.to_task, r.relation_type.value⟩

/-- Method Relationship.from_dict (graph_engine.py lines 83-89). -/
def Relationship.from_dict (d : RelDict) : Option Relationship :=
  match RelationType.ofString d.rel_type with
  | some ty => some ⟨d.from_task, d.to_task, ty⟩
  | none => none

/-- The JSON document TaskGraph.to_json emits and TaskGraph.from_json reads:
the ordered `nodes` mapping and the `edges` list. -/
structure GraphDoc where
  nodes : List (String × TaskDict)
  edges : List RelDict
deriving DecidableEq

/-- Method TaskGraph.to_json (graph_engine.py lines 290-296), at the document
level (the `json.dumps`/`json.loads` text layer is lossless on this shape). -/
def to_json (g : TaskGraph) : GraphDoc :=
  ⟨g.nodes.map (fun p => (p.1, p.2.to_dict)), g.edges.map Relationship.to_dict⟩

/-- The node-loading loop of from_json: `graph.nodes[task_id] = Task.from_dict(task_data)`
over the document mapping in order, aborting on a bad status string. -/
def loadNodes : List (String × TaskDict) → List (String × Task) → Option (List (String × Task))
  | [], acc => some acc
  | p :: rest, acc =>
    match Task.from_dict p.2 with
    | some t => loadNodes rest (dictSet acc p.1 t)
    | none => none

/-- The edge-loading loop of from_json, aborting on a bad type string. -/
def loadEdges : List RelDict → Option (List Relationship)
  | [] => some []
  | d :: rest =>
    match Relationship.from_dict d with
    | some r => (loadEdges rest).map (fun l => r :: l)
    | none => none

/-- Method TaskGraph.from_json (graph_engine.py lines 298-313). -/
def from_json (d : GraphDoc) : Option TaskGraph :=
  match loadNodes d.nodes [] with
  | none => none
  | some nodes =>
    match loadEdges d.edges with
    | none => none
    | some edges => some ⟨nodes, edges⟩

/-- Stores reachable from the empty store through the public operations of the
engine (including a deserialization, and including a failed `update_task`,
whose partially mutated store the caller keeps). -/
inductive Reachable : TaskGraph → Prop
  | empty : Reachable TaskGraph.empty
  | addTaskStep {g g' : TaskGraph} {t : Task} :
      Reachable g → add_task g t = Except.ok g' → Reachable g'
  | updateTaskStep {g g' : TaskGraph} {task_id : String} {us : List UpdateEntry} {e : Option PyErr} :
      Reachable g → update_task g task_id us = (g', e) → Reachable g'
  | deleteTaskStep {g : TaskGraph} {task_id : String} :
      Reachable g → Reachable (delete_task g task_id)
  | addRelStep {g g' : TaskGraph} {from_id to_id : String} {ty : RelationType} :
      Reachable g → add_relationship g from_id to_id ty = Except.ok g' → Reachable g'
  | deleteRelStep {g : TaskGraph} {from_id to_id : String} {ty : Option RelationType} :
      Reachable g → Reachable (delete_relationship g from_id to_id ty)
  | fromJsonStep {d : GraphDoc} {g : TaskGraph} :
      from_json d = some g → Reachable g

/-- One hop of the `blocks` relation: some `blocks` edge goes from `a` to `b`. -/
def blocksStep (edges : List Relationship) (a b : String) : Prop :=
  ∃ e ∈ edges, e.from_task = a ∧ e.relation_type = RelationType.blocks ∧ e.to_task = b

/-- Reachability in one or more `blocks` hops (the transitive closure the
downstream query is specified to compute). -/
def ReachBlocks (edges : List Relationship) (a b : String) : Prop :=
  Relation.TransGen (blocksStep edges) a b

/-! Proof apparatus for the BFS loop: every id the queue can ever hold, a
strictly decreasing measure, and the loop invariant. -/

/-- Every id the BFS queue can ever contain: the start id and the edge
targets. -/
def bfsPotential (edges : List Relationship) (root : String) : List String :=
  root :: edges.map Relationship.to_task

/-- Termination measure of the BFS loop: queue length plus a weighted count of
the still-unvisited potential ids; it strictly decreases at every iteration. -/
def bfsMeasure (edges : List Relationship) (root : String) (queue visited : List String) : Nat :=
  queue.length +
    (edges.length + 1) *
      ((bfsPotential edges root).filter (fun x => decide (x ∉ visited))).length

/-- Invariant of the BFS loop of get_downstream_tasks: everything collected is
reachable, queue entries are the root or already collected, visited ids have
all their `blocks` successors collected, collected ids are visited or queued,
the root is visited or queued, and the queue stays inside the potential ids. -/
def BfsInv (edges : List Relationship) (root : String)
    (queue visited downstream : List String) : Prop :=
  (∀ x ∈ downstream, ReachBlocks edges root x) ∧
  (∀ x ∈ queue, x = root ∨ x ∈ downstream) ∧
  (∀ x ∈ visited, ∀ e ∈ edges,
    e.from_task = x → e.relation_type = RelationType.blocks → e.to_task ∈ downstream) ∧
  (∀ x ∈ downstream, x ∈ visited ∨ x ∈ queue) ∧
  (root ∈ visited ∨ root ∈ queue) ∧
  (∀ x ∈ queue, x ∈ bfsPotential edges root)

/-! Concrete stores used by the claim instances, witnesses and
counterexamples.  All tasks carry the dataclass defaults unless stated. -/

/-- A task with the given id and all dataclass defaults. -/
def taskNamed (i : String) : Task :=
  { id := i }

/-- Store with the single task `a`. -/
def gOne : TaskGraph :=
  ⟨[("a", taskNamed "a")], []⟩

/-- Store with two unrelated tasks `a` and `b`. -/
def gTwo : TaskGraph :=
  ⟨[("a", taskNamed "a"), ("b", taskNamed "b")], []⟩

/-- Store with tasks `a`, `b` and three edges between them of all types. -/
def gRels : TaskGraph :=
  ⟨[("a", taskNamed "a"), ("b", taskNamed "b")],
   [⟨"a", "b", .blocks⟩, ⟨"a", "b", .relates_to⟩, ⟨"a", "b", .part_of⟩, ⟨"b", "a", .blocks⟩]⟩

/-- Store with the blocks cycle a → b → c → a. -/
def gCycle : TaskGraph :=
  ⟨[("a", taskNamed "a"), ("b", taskNamed "b"), ("c", taskNamed "c")],
   [⟨"a", "b", .blocks⟩, ⟨"b", "c", .blocks⟩, ⟨"c", "a", .blocks⟩]⟩

/-- Store with the blocks chain a → b → c. -/
def gChain : TaskGraph :=
  ⟨[("a", taskNamed "a"), ("b", taskNamed "b"), ("c", taskNamed "c")],
   [⟨"a", "b", .blocks⟩, ⟨"b", "c", .blocks⟩]⟩

/-- Store where pending task `y` blocks task `x`. -/
def gBlocked : TaskGraph :=
  ⟨[("x", taskNamed "x"), ("y", taskNamed "y")], [⟨"y", "x", .blocks⟩]⟩

/-- Store holding only task `y` but whose edge list names the absent id `a` as
the source of a `blocks` edge targeting `x` (such a document loads fine
through from_json; `validate` reports it as a broken relationship). -/
def gDangSrc : TaskGraph :=
  ⟨[("y", taskNamed "y")], [⟨"a", "x", .blocks⟩, ⟨"y", "x", .blocks⟩]⟩

/-- Store holding only task `y` with dangling `blocks` edges to and from the
absent id `x`. -/
def gDangTen : TaskGraph :=
  ⟨[("y", taskNamed "y")], [⟨"y", "x", .blocks⟩, ⟨"x", "y", .blocks⟩]⟩

/-- Store holding only task `b` plus a dangling `blocks` edge from the absent
id `a` to `b`. -/
def gDangDel : TaskGraph :=
  ⟨[("b", taskNamed "b")], [⟨"a", "b", .blocks⟩]⟩

/-- The store reached by adding the task `design-api` to the empty store. -/
def gDesign : TaskGraph :=
  ⟨[("design-api", taskNamed "design-api")], []⟩

/-! Library of facts about the dict model. -/

theorem dictGet_dictSet_self {α : Type} (m : List (String × α)) (k : String) (v : α) :
    dictGet (dictSet m k v) k = some v := by
  induction m with
  | nil => simp [dictSet, dictGet]
  | cons p rest ih =>
    by_cases h : p.1 = k
    · simp [dictSet, dictGet, h]
    · simp [dictSet, dictGet, h, ih]

theorem dictGet_dictSet_ne {α : Type} (m : List (String × α)) {k k' : String} (v : α)
    (hne : k' ≠ k) : dictGet (dictSet m k v) k' = dictGet m k' := by
  induction m with
  | nil => simp [dictSet, dictGet, Ne.symm hne]
  | cons p rest ih =>
    by_cases h : p.1 = k
    · simp [dictSet, dictGet, h, Ne.symm hne]
    · simp [dictSet, dictGet, h, ih]

theorem dictSet_eq_of_get {α : Type} {m : List (String × α)} {k : String} {v : α}
    (h : dictGet m k = some v) : dictSet m k v = m := by
  induction m with
  | nil => simp [dictGet] at h
  | cons p rest ih =>
    by_cases hk : p.1 = k
    · have h2 : p.2 = v := by
        rw [dictGet] at h
        simpa [hk] using h
      have hp : (k, v) = p := by
        cases p
        simp_all
      simp [dictSet, hk, hp]
    · have h2 : dictGet rest k = some v := by
        rw [dictGet] at h
        simpa [hk] using h
      simp [dictSet, hk, ih h2]

theorem dictGet_eq_none_iff {α : Type} (m : List (String × α)) (k : String) :
    dictGet m k = none ↔ ∀ p ∈ m, p.1 ≠ k := by
  induction m with
  | nil => simp [dictGet]
  | cons p rest ih =>
    by_cases h : p.1 = k
    · simp [dictGet, h]
    · simp [dictGet, h, ih]

theorem dictSet_append_of_none {α : Type} {m : List (String × α)} {k : String} (v : α)
    (h : dictGet m k = none) : dictSet m k v = m ++ [(k, v)] := by
  induction m with
  | nil => simp [dictSet]
  | cons p rest ih =>
    rw [dictGet_eq_none_iff] at h
    have hp : p.1 ≠ k := h p (by simp)
    have hrest : dictGet rest k = none := by
      rw [dictGet_eq_none_iff]
      exact fun q hq => h q (by simp [hq])
    simp [dictSet, hp, ih hrest]

theorem dictGet_dictDel_self {α : Type} (m : List (String × α)) (k : String) :
    dictGet (dictDel m k) k = none := by
  rw [dictGet_eq_none_iff]
  intro p hp
  have := List.mem_filter.mp hp
  simpa using this.2

theorem dictDel_eq_self_of_none {α : Type} {m : List (String × α)} {k : String}
    (h : dictGet m k = none) : dictDel m k = m := by
  rw [dictGet_eq_none_iff] at h
  exact List.filter_eq_self.mpr fun p hp => by simpa using h p hp

theorem dictMem_false_iff {α : Type} (m : List (String × α)) (k : String) :
    dictMem m k = false ↔ dictGet m k = none := by
  unfold dictMem
  cases dictGet m k <;> simp

/-!
C5.  AddTask fails with InvalidId exactly when the id fails the identifier
policy, with DuplicateId when the id is valid but already present, and
otherwise inserts the task so lookup returns it; the five concrete ids behave
as listed.
-/

/-- C5: add_task rejects exactly the ids validate_task_id rejects (InvalidId),
rejects valid duplicates (DuplicateId), inserts otherwise so that lookup finds
the task, and the identifier policy decides the five spec examples as claimed. -/
theorem C5_add_task_id_policy :
    (∀ (g : TaskGraph) (t : Task),
      add_task g t = Except.error PyErr.invalidId ↔ (validate_task_id t.id).1 = false) ∧
    (∀ (g : TaskGraph) (t : Task),
      add_task g t = Except.error PyErr.duplicateId ↔
        (validate_task_id t.id).1 = true ∧ dictMem g.nodes t.id = true) ∧
    (∀ (g : TaskGraph) (t : Task),
      (validate_task_id t.id).1 = true → dictMem g.nodes t.id = false →
        add_task g t = Except.ok { g with nodes := dictSet g.nodes t.id t } ∧
        dictGet (dictSet g.nodes t.id t) t.id = some t) ∧
    (validate_task_id "Design-Api").1 = false ∧
    (validate_task_id "design api").1 = false ∧
    (validate_task_id "design-api-for-the-new-service").1 = false ∧
    (validate_task_id "").1 = false ∧
    (validate_task_id "design-api").1 = true := by
  refine ⟨?_, ?_, ?_, by decide, by decide, by decide, by decide, by decide⟩
  · intro g t
    cases hv : (validate_task_id t.id).1 with
    | false => simp [add_task, hv]
    | true =>
      cases hm : dictMem g.nodes t.id with
      | false => simp [add_task, hv, hm]
      | true => simp [add_task, hv, hm]
  · intro g t
    cases hv : (validate_task_id t.id).1 with
    | false => simp [add_task, hv]
    | true =>
      cases hm : dictMem g.nodes t.id with
      | false => simp [add_task, hv, hm]
      | true => simp [add_task, hv, hm]
  · intro g t hv hm
    exact ⟨by simp [add_task, hv, hm], dictGet_dictSet_self g.nodes t.id t⟩

/-- C5 witness: inserting `design-api` into the empty store succeeds and
lookup returns the task. -/
theorem C5_add_task_id_policy_witness :
    add_task TaskGraph.empty (taskNamed "design-api") =
      Except.ok { TaskGraph.empty with
        nodes := dictSet TaskGraph.empty.nodes "design-api" (taskNamed "design-api") } ∧
    dictGet (dictSet TaskGraph.empty.nodes "design-api" (taskNamed "design-api"))
      "design-api" = some (taskNamed "design-api") :=
  C5_add_task_id_policy.2.2.1 TaskGraph.empty (taskNamed "design-api") (by decide) (by decide)

/-!
C4.  detect_cycles is a read-only DFS over the `blocks` edges, started from
every not-yet-visited task in task-dict order, recording, whenever it reaches
a node on the recursion stack, the current path from that node's first
occurrence with the node appended; on the three-task blocks cycle
a → b → c → a it reports exactly the cycle [a, b, c, a].  (In this embedding
detect_cycles is a pure function of the store, so it cannot mutate it.)
-/

/-- C4: on the store with blocks edges a → b, b → c, c → a the DFS reports the
single cycle a, b, c closed back at a; in particular at least one reported
cycle lists all three ids in order and closes back to its start. -/
theorem C4_detect_cycles_cycle :
    detect_cycles gCycle = [["a", "b", "c", "a"]] ∧
    ∃ c ∈ detect_cycles gCycle, c = ["a", "b", "c", "a"] := by
  exact ⟨by decide, ⟨["a", "b", "c", "a"], by decide, rfl⟩⟩

theorem TaskGraph.ext_parts {g₁ g₂ : TaskGraph}
    (h1 : g₁.nodes = g₂.nodes) (h2 : g₁.edges = g₂.edges) : g₁ = g₂ := by
  cases g₁
  cases g₂
  cases h1
  cases h2
  rfl

/-!
C2.  DeleteRelationship with a type removes exactly the (from, to, type)
matches and leaves other types between the pair intact; with the type omitted
it removes every edge between the pair; the reported count is the number of
matching edges, and a zero count means the store is untouched.
-/

/-- C2: delete_relationship keeps the task dict, keeps exactly the edges not
matching the (pair, optional type) query — so edges of other types between the
same pair survive a typed delete, and an untyped delete drops every type —
reports the number of matching edges as its count, and is a no-op on the store
when nothing matches. -/
theorem C2_delete_relationship :
    ∀ (g : TaskGraph) (from_id to_id : String) (ty : Option RelationType),
      (delete_relationship g from_id to_id ty).nodes = g.nodes ∧
      (∀ e : Relationship,
        e ∈ (delete_relationship g from_id to_id ty).edges ↔
          e ∈ g.edges ∧ relMatch from_id to_id ty e = false) ∧
      delete_relationship_count g from_id to_id ty =
        g.edges.countP (relMatch from_id to_id ty) ∧
      (g.edges.countP (relMatch from_id to_id ty) = 0 →
        delete_relationship g from_id to_id ty = g) := by
  intro g f t ty
  have hedges : (delete_relationship g f t ty).edges =
      g.edges.filter (fun e => !relMatch f t ty e) := by
    cases ty <;> simp [delete_relationship, relMatch]
  have hnodes : (delete_relationship g f t ty).nodes = g.nodes := by
    cases ty <;> rfl
  refine ⟨hnodes, ?_, ?_, ?_⟩
  · intro e
    rw [hedges, List.mem_filter]
    simp
  · rw [delete_relationship_count, hedges]
    have hsplit := List.length_eq_length_filter_add (l := g.edges) (relMatch f t ty)
    rw [List.countP_eq_length_filter]
    omega
  · intro h0
    have hself : g.edges.filter (fun e => !relMatch f t ty e) = g.edges :=
      List.filter_eq_self.mpr fun a ha => by
        have := List.countP_eq_zero.mp h0 a ha
        simp_all
    exact TaskGraph.ext_parts hnodes (by rw [hedges, hself])

/-- C2 witness: on the two-task store with no edges, an untyped delete between
the pair matches nothing and leaves the store untouched. -/
theorem C2_delete_relationship_witness :
    delete_relationship gTwo "a" "b" none = gTwo :=
  (C2_delete_relationship gTwo "a" "b" none).2.2.2 (by decide)

/-!
C6.  The claim that DeleteTask of an absent id leaves the store completely
unchanged fails: the edge filter runs regardless of node presence, so a
dangling edge naming the absent id is removed.  What holds: the task (if any)
and every edge referencing the id are removed, the call is idempotent, an
absent id leaves the task dict unchanged, and the store is entirely unchanged
when additionally no edge references the id (in particular in any store whose
edges reference only present tasks).
-/

/-- C6 counterexample: in the store holding only task `b` plus a dangling
edge a → b loaded from a document, the id `a` is absent, yet DeleteTask(a)
changes the store (it removes the dangling edge). -/
theorem C6_delete_task_counterexample :
    dictMem gDangDel.nodes "a" = false ∧ delete_task gDangDel "a" ≠ gDangDel := by
  decide

/-- C6 amended: delete_task removes the task and exactly the edges touching
the id (so no edge referencing the id remains), it is idempotent, an absent id
leaves the task dict unchanged, and the store is completely unchanged
precisely when additionally no (dangling) edge references the absent id. -/
theorem C6_delete_task_amended :
    ∀ (g : TaskGraph) (task_id : String),
      dictGet (delete_task g task_id).nodes task_id = none ∧
      (∀ e, e ∈ (delete_task g task_id).edges ↔
        e ∈ g.edges ∧ e.from_task ≠ task_id ∧ e.to_task ≠ task_id) ∧
      (∀ e ∈ (delete_task g task_id).edges, e.from_task ≠ task_id ∧ e.to_task ≠ task_id) ∧
      delete_task (delete_task g task_id) task_id = delete_task g task_id ∧
      (dictMem g.nodes task_id = false →
        (delete_task g task_id).nodes = g.nodes ∧
        ((∀ e ∈ g.edges, e.from_task ≠ task_id ∧ e.to_task ≠ task_id) →
          delete_task g task_id = g)) := by
  intro g task_id
  have hmem : ∀ e, e ∈ (delete_task g task_id).edges ↔
      e ∈ g.edges ∧ e.from_task ≠ task_id ∧ e.to_task ≠ task_id := by
    intro e
    rw [delete_task]
    rw [List.mem_filter]
    simp
  refine ⟨dictGet_dictDel_self g.nodes task_id, hmem, ?_, ?_, ?_⟩
  · exact fun e he => ((hmem e).mp he).2
  · apply TaskGraph.ext_parts
    · show dictDel (dictDel g.nodes task_id) task_id = dictDel g.nodes task_id
      exact dictDel_eq_self_of_none (dictGet_dictDel_self g.nodes task_id)
    · show List.filter _ (List.filter _ g.edges) = List.filter _ g.edges
      exact List.filter_eq_self.mpr fun a ha => (List.mem_filter.mp ha).2
  · intro habs
    have hnone : dictGet g.nodes task_id = none := (dictMem_false_iff _ _).mp habs
    have hnodes : (delete_task g task_id).nodes = g.nodes :=
      dictDel_eq_self_of_none hnone
    refine ⟨hnodes, fun hedge => ?_⟩
    apply TaskGraph.ext_parts hnodes
    show List.filter _ g.edges = g.edges
    exact List.filter_eq_self.mpr fun a ha => by
      have := hedge a ha
      simp [this.1, this.2]

/-- C6 witness: deleting the absent id `c` from the two-task store with no
edges leaves the store unchanged. -/
theorem C6_delete_task_amended_witness :
    delete_task gTwo "c" = gTwo :=
  ((C6_delete_task_amended gTwo "c").2.2.2.2 (by decide)).2 (by decide)

/-!
C9.  UpdateTask indeed treats `id` as an ordinary attribute and desynchronizes
the id attribute from the dict key, but the final parenthetical of the claim —
lookup by the new id fails — is false when another task is already stored
under that key: lookup then returns that other task.
-/

/-- C9 counterexample: in the two-task store, renaming task `a`'s id attribute
to `b` succeeds, yet lookup by the new id `b` does not fail — it returns the
other task stored under `b`. -/
theorem C9_update_id_counterexample :
    (update_task gTwo "a" [UpdateEntry.id "b"]).2 = none ∧
    dictGet (update_task gTwo "a" [UpdateEntry.id "b"]).1.nodes "b" = some (taskNamed "b") := by
  decide

/-- C9 amended: for a task stored under key k, updating field id to v ≠ k
succeeds, stores the renamed task still under key k (so some task's id
attribute differs from its key), and lookup by v finds nothing provided no
other task sits under key v (it never finds the renamed task). -/
theorem C9_update_id_amended :
    ∀ (g : TaskGraph) (k v : String) (t : Task),
      dictGet g.nodes k = some t → v ≠ k →
      update_task g k [UpdateEntry.id v] =
        ({ g with nodes := dictSet g.nodes k { t with id := v } }, none) ∧
      dictGet (update_task g k [UpdateEntry.id v]).1.nodes k = some { t with id := v } ∧
      (∃ k' t', dictGet (update_task g k [UpdateEntry.id v]).1.nodes k' = some t' ∧
        t'.id ≠ k') ∧
      (dictMem g.nodes v = false →
        dictGet (update_task g k [UpdateEntry.id v]).1.nodes v = none) := by
  intro g k v t hget hne
  have hupd : update_task g k [UpdateEntry.id v] =
      ({ g with nodes := dictSet g.nodes k { t with id := v } }, none) := by
    rw [update_task, hget]
    rfl
  have hk : dictGet (update_task g k [UpdateEntry.id v]).1.nodes k = some { t with id := v } := by
    rw [hupd]
    exact dictGet_dictSet_self g.nodes k { t with id := v }
  refine ⟨hupd, hk, ⟨k, { t with id := v }, hk, hne⟩, fun habs => ?_⟩
  rw [hupd]
  show dictGet (dictSet g.nodes k { t with id := v }) v = none
  rw [dictGet_dictSet_ne g.nodes _ hne]
  exact (dictMem_false_iff _ _).mp habs

/-- C9 witness: in the single-task store, renaming `a` to `b` leaves lookup by
`b` empty. -/
theorem C9_update_id_amended_witness :
    dictGet (update_task gOne "a" [UpdateEntry.id "b"]).1.nodes "b" = none :=
  (C9_update_id_amended gOne "a" "b" (taskNamed "a") (by decide) (by decide)).2.2.2 (by decide)

theorem applyUpdates_append (t : Task) (pre us : List UpdateEntry) :
    applyUpdates t (pre ++ us) =
      match applyUpdates t pre with
      | (t₁, none) => applyUpdates t₁ us
      | (t₁, some e) => (t₁, some e) := by
  induction pre generalizing t with
  | nil => simp [applyUpdates]
  | cons u rest ih =>
    rw [List.cons_append]
    cases h : applyUpdate t u with
    | ok t' => simp [applyUpdates, h, ih]
    | error e => simp [applyUpdates, h]

/-!
C1.  The claim that a failing UpdateTask leaves the store completely unchanged
fails: the Python loop converts/validates the status string in the middle of
applying the payload, mutating the stored task in place, so fields supplied
before an invalid status are already applied when the ValueError is raised.
What holds: the call fails with InvalidStatus, fields after the failing status
(and the status itself) are not applied, and the store is unchanged when the
invalid status is the first supplied field (in particular when it is the only
one); an absent id still fails with NotFound leaving the store unchanged.
-/

/-- C1 counterexample: updating task `a` with the payload
(description := "x", status := "bogus") raises InvalidStatus but leaves the
store mutated — the description was applied before the status was validated. -/
theorem C1_update_task_counterexample :
    (update_task gOne "a" [UpdateEntry.description "x", UpdateEntry.statusStr "bogus"]).2 =
      some PyErr.invalidStatus ∧
    (update_task gOne "a" [UpdateEntry.description "x", UpdateEntry.statusStr "bogus"]).1 ≠
      gOne := by
  decide

/-- C1 amended: update_task of an absent id fails with NotFound leaving the
store unchanged; on a present task, a payload whose entries up to an invalid
status string all apply cleanly fails with InvalidStatus, leaving exactly
those earlier entries applied and dropping the rest — so the store is
unchanged when the invalid status comes first in the payload. -/
theorem C1_update_task_amended :
    (∀ (g : TaskGraph) (task_id : String) (us : List UpdateEntry),
      dictGet g.nodes task_id = none →
        update_task g task_id us = (g, some PyErr.notFound)) ∧
    (∀ (g : TaskGraph) (task_id : String) (t t₁ : Task) (pre rest : List UpdateEntry)
      (v : String),
      dictGet g.nodes task_id = some t →
      applyUpdates t pre = (t₁, none) →
      TaskStatus.ofString v = none →
      update_task g task_id (pre ++ UpdateEntry.statusStr v :: rest) =
        ({ g with nodes := dictSet g.nodes task_id t₁ }, some PyErr.invalidStatus) ∧
      (pre = [] →
        update_task g task_id (pre ++ UpdateEntry.statusStr v :: rest) =
          (g, some PyErr.invalidStatus))) := by
  constructor
  · intro g task_id us h
    rw [update_task, h]
  · intro g task_id t t₁ pre rest v hget hpre hv
    have happ : applyUpdates t (pre ++ UpdateEntry.statusStr v :: rest) =
        (t₁, some PyErr.invalidStatus) := by
      rw [applyUpdates_append, hpre]
      simp [applyUpdates, applyUpdate, hv]
    have hmain : update_task g task_id (pre ++ UpdateEntry.statusStr v :: rest) =
        ({ g with nodes := dictSet g.nodes task_id t₁ }, some PyErr.invalidStatus) := by
      rw [update_task, hget]
      simp [happ]
    refine ⟨hmain, fun hpre0 => ?_⟩
    subst hpre0
    have ht : t₁ = t := by
      have : (t, (none : Option PyErr)) = (t₁, none) := by
        rw [← hpre]
        rfl
      exact (Prod.mk.injEq _ _ _ _ ▸ this).1.symm
    rw [hmain, ht, dictSet_eq_of_get hget]

/-- C1 witness: a payload whose only entry is the invalid status string
`bogus` fails with InvalidStatus and leaves the single-task store unchanged. -/
theorem C1_update_task_amended_witness :
    update_task gOne "a" [UpdateEntry.statusStr "bogus"] = (gOne, some PyErr.invalidStatus) :=
  (C1_update_task_amended.2 gOne "a" (taskNamed "a") (taskNamed "a") [] []
    "bogus" (by decide) (by decide) (by decide)).2 rfl

theorem blockersAux_char (nodes : List (String × Task)) (task_id : String) :
    ∀ edges : List Relationship,
      (∀ e ∈ edges, e.relation_type = RelationType.blocks → e.to_task = task_id →
        dictMem nodes e.from_task = true) →
      ∃ l, blockersAux nodes task_id edges = .ok l ∧
        ∀ t : Task, t ∈ l ↔ ∃ e ∈ edges, e.relation_type = RelationType.blocks ∧
          e.to_task = task_id ∧ dictGet nodes e.from_task = some t := by
  intro edges
  induction edges with
  | nil =>
    intro _
    exact ⟨[], rfl, by simp⟩
  | cons e rest ih =>
    intro h
    obtain ⟨l, hl, hiff⟩ := ih fun e' he' => h e' (by simp [he'])
    by_cases hmatch : e.to_task = task_id ∧ e.relation_type = RelationType.blocks
    · have hsrc : dictMem nodes e.from_task = true := h e (by simp) hmatch.2 hmatch.1
      obtain ⟨t0, ht0⟩ : ∃ t0, dictGet nodes e.from_task = some t0 := by
        rcases hg : dictGet nodes e.from_task with _ | t0
        · rw [dictMem, hg] at hsrc
          simp at hsrc
        · exact ⟨t0, rfl⟩
      have hcond : (e.to_task == task_id && e.relation_type == RelationType.blocks) = true := by
        simp [hmatch.1, hmatch.2]
      refine ⟨t0 :: l, ?_, ?_⟩
      · rw [blockersAux, if_pos hcond, ht0, hl]
      · intro t
        constructor
        · intro ht
          rcases List.mem_cons.mp ht with h1 | h1
          · exact ⟨e, by simp, hmatch.2, hmatch.1, h1 ▸ ht0⟩
          · obtain ⟨e', he', hp⟩ := (hiff t).mp h1
            exact ⟨e', by simp [he'], hp⟩
        · rintro ⟨e', he', hb, hto, hg⟩
          rcases List.mem_cons.mp he' with h1 | h1
          · subst h1
            rw [ht0] at hg
            exact List.mem_cons.mpr (Or.inl (Option.some.injEq _ _ ▸ hg).symm)
          · exact List.mem_cons.mpr (Or.inr ((hiff t).mpr ⟨e', h1, hb, hto, hg⟩))
    · have hcond : (e.to_task == task_id && e.relation_type == RelationType.blocks) = false := by
        rcases not_and_or.mp hmatch with h1 | h1 <;> simp [h1]
      refine ⟨l, ?_, ?_⟩
      · rw [blockersAux, if_neg (by simp [hcond])]
        exact hl
      · intro t
        rw [hiff t]
        constructor
        · rintro ⟨e', he', hp⟩
          exact ⟨e', by simp [he'], hp⟩
        · rintro ⟨e', he', hb, hto, hg⟩
          rcases List.mem_cons.mp he' with h1 | h1
          · subst h1
            exact absurd ⟨hto, hb⟩ hmatch
          · exact ⟨e', h1, hb, hto, hg⟩

theorem is_blocked_eq_ok_false (g : TaskGraph) (task_id : String)
    (h : ∀ e ∈ g.edges, ¬(e.relation_type = RelationType.blocks ∧ e.to_task = task_id)) :
    is_blocked g task_id = Except.ok false := by
  obtain ⟨l, hl, hiff⟩ := blockersAux_char g.nodes task_id g.edges
    (fun e he hb hto => absurd ⟨hb, hto⟩ (h e he))
  have hnil : l = [] := by
    rcases l with _ | ⟨t, l'⟩
    · rfl
    · obtain ⟨e, he, hb, hto, _⟩ := (hiff t).mp (by simp)
      exact absurd ⟨hb, hto⟩ (h e he)
  rw [is_blocked, get_blocking_dependencies, hl, hnil]
  rfl

/-!
C8.  The claimed iff for IsBlocked fails on a store with a dangling `blocks`
edge targeting the id: the unguarded `self.nodes[rel.from_task]` lookup raises
KeyError before the present pending blocker is consulted, so the call returns
no boolean at all.  What holds: when every `blocks` edge targeting the id has
a present source, IsBlocked is true iff some such source task is not done; a
task with no blocking dependencies is never blocked; and the concrete
pending/done scenario behaves as claimed.
-/

/-- C8 counterexample: in the store holding only pending task `y` with loaded
blocks edges a → x and y → x (source `a` dangling), the claim's right-hand
side holds — `y` is a task, sources a blocks edge targeting `x`, and is not
done — yet IsBlocked(x) is not true: it raises KeyError. -/
theorem C8_is_blocked_counterexample :
    is_blocked gDangSrc "x" = Except.error PyErr.keyError ∧
    is_blocked gDangSrc "x" ≠ Except.ok true ∧
    (⟨"y", "x", RelationType.blocks⟩ : Relationship) ∈ gDangSrc.edges ∧
    dictGet gDangSrc.nodes "y" = some (taskNamed "y") ∧
    (taskNamed "y").status ≠ TaskStatus.done := by
  decide

/-- C8 amended: provided every `blocks` edge targeting the id has its source
present, IsBlocked(id) returns true iff some present source task of a `blocks`
edge targeting id has a status other than done; a task with no blocking
dependencies is never blocked; concretely, pending `y` blocking `x` makes `x`
blocked, and setting `y`'s status to done unblocks `x`. -/
theorem C8_is_blocked_amended :
    (∀ (g : TaskGraph) (task_id : String),
      (∀ e ∈ g.edges, e.relation_type = RelationType.blocks → e.to_task = task_id →
        dictMem g.nodes e.from_task = true) →
      (is_blocked g task_id = Except.ok true ↔
        ∃ e ∈ g.edges, e.relation_type = RelationType.blocks ∧ e.to_task = task_id ∧
          ∃ t, dictGet g.nodes e.from_task = some t ∧ t.status ≠ TaskStatus.done)) ∧
    (∀ (g : TaskGraph) (task_id : String),
      (∀ e ∈ g.edges, ¬(e.relation_type = RelationType.blocks ∧ e.to_task = task_id)) →
      is_blocked g task_id = Except.ok false) ∧
    is_blocked gBlocked "x" = Except.ok true ∧
    is_blocked (update_task gBlocked "y" [UpdateEntry.statusStr "done"]).1 "x" =
      Except.ok false := by
  refine ⟨?_, is_blocked_eq_ok_false, by decide, by decide⟩
  intro g task_id h
  obtain ⟨l, hl, hiff⟩ := blockersAux_char g.nodes task_id g.edges h
  rw [is_blocked, get_blocking_dependencies, hl]
  constructor
  · intro hok
    have hany : l.any (fun dep => !dep.is_complete) = true := by
      simpa using hok
    obtain ⟨t, htl, hnc⟩ := List.any_eq_true.mp hany
    obtain ⟨e, he, hb, hto, hg⟩ := (hiff t).mp htl
    refine ⟨e, he, hb, hto, t, hg, ?_⟩
    simpa [Task.is_complete] using hnc
  · rintro ⟨e, he, hb, hto, t, hg, hnd⟩
    have htl : t ∈ l := (hiff t).mpr ⟨e, he, hb, hto, hg⟩
    have hany : l.any (fun dep => !dep.is_complete) = true :=
      List.any_eq_true.mpr ⟨t, htl, by simpa [Task.is_complete] using hnd⟩
    simp [hany]

/-- C8 witness: instantiating the amended iff on the pending-blocker store
produces the concrete blocking edge and its not-done source task. -/
theorem C8_is_blocked_amended_witness :
    ∃ e ∈ gBlocked.edges, e.relation_type = RelationType.blocks ∧ e.to_task = "x" ∧
      ∃ t, dictGet gBlocked.nodes e.from_task = some t ∧ t.status ≠ TaskStatus.done :=
  (C8_is_blocked_amended.1 gBlocked "x" (by decide)).mp (by decide)

theorem blockersAux_error_keyError (nodes : List (String × Task)) (task_id : String) :
    ∀ (edges : List Relationship) (e : PyErr),
      blockersAux nodes task_id edges = .error e → e = PyErr.keyError := by
  intro edges
  induction edges with
  | nil =>
    intro e h
    simp [blockersAux] at h
  | cons r rest ih =>
    intro e h
    rw [blockersAux] at h
    by_cases hc : (r.to_task == task_id && r.relation_type == RelationType.blocks) = true
    · rw [if_pos hc] at h
      rcases hg : dictGet nodes r.from_task with _ | t
      · rw [hg] at h
        exact (Except.error.injEq _ _ ▸ h).symm
      · rw [hg] at h
        rcases hrest : blockersAux nodes task_id rest with e' | l
        · rw [hrest] at h
          have he : e' = e := by simpa using h
          exact he ▸ ih e' hrest
        · rw [hrest] at h
          simp at h
    · rw [if_neg hc] at h
      exact ih e h

theorem bfsLoop_start_no_out (edges : List Relationship) (fuel : Nat) (root : String)
    (h : edges.filter
      (fun e => e.from_task == root && e.relation_type == RelationType.blocks) = []) :
    bfsLoop edges (fuel + 2) [root] [] [] = [] := by
  rw [bfsLoop, if_neg (List.not_mem_nil root), h]
  simp [bfsLoop]

/-!
C10.  The claim that the read-only queries return false / the empty set on
every absent id fails on stores with dangling edges naming that id: a loaded
blocks edge y → x with `x` absent makes IsBlocked(x) true, and a loaded edge
x → y makes GetDownstreamTasks(x) nonempty.  What holds: neither query ever
fails with NotFound (is_blocked can only raise KeyError, get_downstream_tasks
is total), and on any store whose edges reference only present tasks an
absent id yields false and the empty set.
-/

/-- C10 counterexample: in the store holding only pending task `y` with loaded
blocks edges y → x and x → y, the id `x` is absent, yet IsBlocked(x) is true
(not false) and GetDownstreamTasks(x) is nonempty (not the empty set). -/
theorem C10_absent_id_counterexample :
    dictMem gDangTen.nodes "x" = false ∧
    is_blocked gDangTen "x" = Except.ok true ∧
    get_downstream_tasks gDangTen "x" ≠ [] := by
  decide

/-- C10 amended: the queries are total on arbitrary ids in the sense that
neither fails with NotFound; and for an absent id they return false and the
empty set whenever no (dangling) edge references the absent id — in
particular in any store whose edges reference only present tasks. -/
theorem C10_absent_id_queries :
    (∀ (g : TaskGraph) (task_id : String),
      is_blocked g task_id ≠ Except.error PyErr.notFound) ∧
    (∀ (g : TaskGraph) (task_id : String),
      dictMem g.nodes task_id = false →
      (∀ e ∈ g.edges, e.from_task ≠ task_id ∧ e.to_task ≠ task_id) →
      is_blocked g task_id = Except.ok false ∧ get_downstream_tasks g task_id = []) ∧
    (∀ (g : TaskGraph) (task_id : String),
      dictMem g.nodes task_id = false →
      (∀ e ∈ g.edges, dictMem g.nodes e.from_task = true ∧ dictMem g.nodes e.to_task = true) →
      is_blocked g task_id = Except.ok false ∧ get_downstream_tasks g task_id = []) := by
  have hmain : ∀ (g : TaskGraph) (task_id : String),
      (∀ e ∈ g.edges, e.from_task ≠ task_id ∧ e.to_task ≠ task_id) →
      is_blocked g task_id = Except.ok false ∧ get_downstream_tasks g task_id = [] := by
    intro g task_id hnoref
    constructor
    · apply is_blocked_eq_ok_false
      rintro e he ⟨_, hto⟩
      exact (hnoref e he).2 hto
    · rw [get_downstream_tasks, bfsFuel]
      apply bfsLoop_start_no_out
      apply List.filter_eq_nil_iff.mpr
      intro e he
      simp [(hnoref e he).1]
  refine ⟨?_, fun g task_id _ hnoref => hmain g task_id hnoref, ?_⟩
  · intro g task_id h
    rw [is_blocked] at h
    rcases hb : blockersAux g.nodes task_id g.edges with e | l
    · have := blockersAux_error_keyError g.nodes task_id g.edges e hb
      rw [show get_blocking_dependencies g task_id = blockersAux g.nodes task_id g.edges
        from rfl, hb] at h
      subst this
      simp at h
    · rw [show get_blocking_dependencies g task_id = blockersAux g.nodes task_id g.edges
        from rfl, hb] at h
      simp at h
  · intro g task_id habs hpresent
    apply hmain
    intro e he
    constructor
    · intro heq
      have := (hpresent e he).1
      rw [heq, habs] at this
      simp at this
    · intro heq
      have := (hpresent e he).2
      rw [heq, habs] at this
      simp at this

/-- C10 witness: in the two-task store with no edges, the absent id `c` yields
not blocked and an empty downstream set. -/
theorem C10_absent_id_queries_witness :
    is_blocked gTwo "c" = Except.ok false ∧ get_downstream_tasks gTwo "c" = [] :=
  C10_absent_id_queries.2.1 gTwo "c" (by decide) (by decide)

theorem task_dict_roundtrip (t : Task) : Task.from_dict t.to_dict = some t := by
  cases t with
  | mk i d st ac cl eh => cases st <;> rfl

theorem rel_dict_roundtrip (r : Relationship) :
    Relationship.from_dict r.to_dict = some r := by
  cases r with
  | mk f t ty => cases ty <;> rfl

theorem loadEdges_map (l : List Relationship) :
    loadEdges (l.map Relationship.to_dict) = some l := by
  induction l with
  | nil => rfl
  | cons r rest ih =>
    rw [List.map_cons, loadEdges, rel_dict_roundtrip, ih]
    rfl

theorem keys_dictSet_mem {α : Type} (m : List (String × α)) (k : String) (v : α)
    (h : dictGet m k ≠ none) :
    (dictSet m k v).map Prod.fst = m.map Prod.fst := by
  induction m with
  | nil => simp [dictGet] at h
  | cons p rest ih =>
    by_cases hp : p.1 = k
    · simp [dictSet, hp]
    · have h' : dictGet rest k ≠ none := by
        rw [dictGet, if_neg (by simpa using hp)] at h
        exact h
      simp [dictSet, hp, ih h']

theorem nodup_keys_dictSet {α : Type} (m : List (String × α)) (k : String) (v : α)
    (h : (m.map Prod.fst).Nodup) : ((dictSet m k v).map Prod.fst).Nodup := by
  rcases hg : dictGet m k with _ | w
  · have hnotin : k ∉ m.map Prod.fst := by
      intro hk
      obtain ⟨p, hp, hpk⟩ := List.mem_map.mp hk
      exact (dictGet_eq_none_iff m k).mp hg p hp hpk
    rw [dictSet_append_of_none v hg, List.map_append]
    rw [List.nodup_append]
    exact ⟨h, List.nodup_singleton k, by simpa [List.disjoint_singleton] using hnotin⟩
  · rw [keys_dictSet_mem m k v (by simp [hg])]
    exact h

theorem nodup_keys_dictDel {α : Type} (m : List (String × α)) (k : String)
    (h : (m.map Prod.fst).Nodup) : ((dictDel m k).map Prod.fst).Nodup :=
  List.Nodup.sublist (List.Sublist.map Prod.fst (List.filter_sublist m)) h

theorem loadNodes_nodup :
    ∀ (doc : List (String × TaskDict)) (acc m : List (String × Task)),
      (acc.map Prod.fst).Nodup → loadNodes doc acc = some m →
      (m.map Prod.fst).Nodup := by
  intro doc
  induction doc with
  | nil =>
    intro acc m hacc h
    rw [loadNodes] at h
    exact (Option.some.injEq _ _ ▸ h) ▸ hacc
  | cons p rest ih =>
    intro acc m hacc h
    rw [loadNodes] at h
    rcases hd : Task.from_dict p.2 with _ | t
    · rw [hd] at h
      simp at h
    · rw [hd] at h
      exact ih (dictSet acc p.1 t) m (nodup_keys_dictSet acc p.1 t hacc) h

theorem delete_relationship_nodes (g : TaskGraph) (from_id to_id : String)
    (ty : Option RelationType) : (delete_relationship g from_id to_id ty).nodes = g.nodes := by
  cases ty <;> rfl

theorem reachable_nodes_nodup : ∀ g : TaskGraph, Reachable g → (g.nodes.map Prod.fst).Nodup := by
  intro g hreach
  induction hreach with
  | empty => simp [TaskGraph.empty]
  | @addTaskStep g g' t _ heq ih =>
    rw [add_task] at heq
    rcases hv : (validate_task_id t.id).1 with _ | _
    · rw [hv] at heq
      simp at heq
    · rw [hv] at heq
      rcases hm : dictMem g.nodes t.id with _ | _
      · rw [hm] at heq
        have hg' : g' = { g with nodes := dictSet g.nodes t.id t } := by
          simpa using heq.symm
        rw [hg']
        exact nodup_keys_dictSet g.nodes t.id t ih
      · rw [hm] at heq
        simp at heq
  | @updateTaskStep g g' task_id us e _ heq ih =>
    rw [update_task] at heq
    rcases hg : dictGet g.nodes task_id with _ | t
    · rw [hg] at heq
      have : g = g' := (Prod.mk.injEq _ _ _ _ ▸ heq).1
      exact this ▸ ih
    · rw [hg] at heq
      have hg' : g' = { g with nodes := dictSet g.nodes task_id (applyUpdates t us).1 } :=
        (Prod.mk.injEq _ _ _ _ ▸ heq).1.symm
      rw [hg']
      exact nodup_keys_dictSet g.nodes task_id _ ih
  | @deleteTaskStep g task_id _ ih =>
    exact nodup_keys_dictDel g.nodes task_id ih
  | @addRelStep g g' from_id to_id ty _ heq ih =>
    rw [add_relationship] at heq
    rcases h1 : dictMem g.nodes from_id with _ | _
    · rw [h1] at heq
      simp at heq
    · rw [h1] at heq
      rcases h2 : dictMem g.nodes to_id with _ | _
      · rw [h2] at heq
        simp at heq
      · rw [h2] at heq
        rcases h3 : g.edges.any fun r =>
            r.from_task == from_id && r.to_task == to_id && r.relation_type == ty with _ | _
        · rw [h3] at heq
          have hg' : g' = { g with edges := g.edges ++ [⟨from_id, to_id, ty⟩] } := by
            simpa using heq.symm
          rw [hg']
          exact ih
        · rw [h3] at heq
          have hg' : g' = g := by simpa using heq.symm
          rw [hg']
          exact ih
  | @deleteRelStep g from_id to_id ty _ ih =>
    rw [delete_relationship_nodes]
    exact ih
  | @fromJsonStep d g heq =>
    rw [from_json] at heq
    rcases hn : loadNodes d.nodes [] with _ | nodes
    · rw [hn] at heq
      simp at heq
    · rw [hn] at heq
      rcases he : loadEdges d.edges with _ | edges
      · rw [he] at heq
        simp at heq
      · rw [he] at heq
        have hg : g = ⟨nodes, edges⟩ := by simpa using heq.symm
        rw [hg]
        exact loadNodes_nodup d.nodes [] nodes (by simp) hn

theorem loadNodes_map_to_dict :
    ∀ (m acc : List (String × Task)),
      (m.map Prod.fst).Nodup →
      (∀ p ∈ m, ∀ q ∈ acc, (q : String × Task).1 ≠ p.1) →
      loadNodes (m.map (fun p => (p.1, p.2.to_dict))) acc = some (acc ++ m) := by
  intro m
  induction m with
  | nil =>
    intro acc _ _
    simp [loadNodes]
  | cons p rest ih =>
    intro acc hnodup hdisj
    rw [List.map_cons, loadNodes]
    dsimp only
    rw [task_dict_roundtrip]
    dsimp only
    have haccp : ∀ q ∈ acc, (q : String × Task).1 ≠ p.1 :=
      fun q hq => hdisj p (by simp) q hq
    have hnone : dictGet acc p.1 = none :=
      (dictGet_eq_none_iff acc p.1).mpr haccp
    rw [dictSet_append_of_none p.2 hnone]
    have hkey : p.1 ∉ rest.map Prod.fst := (List.nodup_cons.mp (by simpa using hnodup)).1
    rw [ih (acc ++ [(p.1, p.2)]) (List.nodup_cons.mp (by simpa using hnodup)).2 ?_]
    · simp
    · intro p' hp' q hq
      rcases List.mem_append.mp hq with hq1 | hq1
      · exact hdisj p' (by simp [hp']) q hq1
      · have : q = (p.1, p.2) := by simpa using hq1
        rw [this]
        intro hcontra
        exact hkey (hcontra ▸ List.mem_map.mpr ⟨p', hp', rfl⟩)

/-!
C3.  Serialization round-trip: for every store reachable from the empty store
through the public operations, deserializing the serialized document yields
the very same store — the typed document carries every field, with an absent
estimate_hours as null that loads back as absent, and the status enum strings
load back to the same members.
-/

/-- C3: for every reachable store, from_json (to_json g) returns exactly g,
all fields included (the absent `estimate_hours` serializes as null and loads
back as absent, not as a default). -/
theorem C3_serialization_roundtrip :
    ∀ g : TaskGraph, Reachable g → from_json (to_json g) = some g := by
  intro g hreach
  have hnodup := reachable_nodes_nodup g hreach
  have hn := loadNodes_map_to_dict g.nodes [] hnodup (by simp)
  simp only [from_json, to_json] at *
  rw [hn, loadEdges_map]
  simp

/-- C3 witness: the store reached by one add_task of `design-api` (whose
estimate_hours is absent) round-trips to itself. -/
theorem C3_serialization_roundtrip_witness :
    from_json (to_json gDesign) = some gDesign :=
  C3_serialization_roundtrip gDesign
    (@Reachable.addTaskStep TaskGraph.empty gDesign (taskNamed "design-api")
      Reachable.empty (by decide))

theorem mem_blocksSucc (edges : List Relationship) (c y : String) :
    (y ∈ (edges.filter
      (fun e => e.from_task == c && e.relation_type == RelationType.blocks)).map
        Relationship.to_task) ↔ blocksStep edges c y := by
  simp only [blocksStep, List.mem_map, List.mem_filter, Bool.and_eq_true, beq_iff_eq]
  constructor
  · rintro ⟨e, ⟨he, hf, hb⟩, ht⟩
    exact ⟨e, he, hf, hb, ht⟩
  · rintro ⟨e, he, hf, hb, ht⟩
    exact ⟨e, ⟨he, hf, hb⟩, ht⟩

theorem blocksSucc_subset_potential (edges : List Relationship) (root c : String) :
    ∀ y ∈ (edges.filter
      (fun e => e.from_task == c && e.relation_type == RelationType.blocks)).map
        Relationship.to_task, y ∈ bfsPotential edges root := by
  intro y hy
  obtain ⟨e, he, ht⟩ := List.mem_map.mp hy
  have : e ∈ edges := (List.mem_filter.mp he).1
  exact List.mem_cons.mpr (Or.inr (List.mem_map.mpr ⟨e, this, ht⟩))

theorem blocksSucc_length_le (edges : List Relationship) (c : String) :
    ((edges.filter
      (fun e => e.from_task == c && e.relation_type == RelationType.blocks)).map
        Relationship.to_task).length ≤ edges.length := by
  rw [List.length_map]
  exact List.length_filter_le _ _

theorem length_filter_not_mem_cons (v : List String) (c : String) (hv : c ∉ v) :
    ∀ l : List String, c ∈ l →
      (l.filter (fun x => decide (x ∉ c :: v))).length + 1 ≤
        (l.filter (fun x => decide (x ∉ v))).length := by
  intro l
  induction l with
  | nil => exact fun hc => absurd hc (List.not_mem_nil c)
  | cons a rest ih =>
    intro hc
    have hmono : ∀ x : String, decide (x ∉ c :: v) = true → decide (x ∉ v) = true := by
      intro x hx
      rw [decide_eq_true_iff] at hx ⊢
      exact fun hxv => hx (List.mem_cons.mpr (Or.inr hxv))
    have hrest_mono : (rest.filter (fun x => decide (x ∉ c :: v))).length ≤
        (rest.filter (fun x => decide (x ∉ v))).length := by
      rw [← List.countP_eq_length_filter, ← List.countP_eq_length_filter]
      exact List.countP_mono_left fun x _ hx => hmono x hx
    rcases List.mem_cons.mp hc with hac | hac
    · subst hac
      rw [List.filter_cons_of_neg (by simp), List.filter_cons_of_pos (by simp [hv])]
      simp only [List.length_cons]
      omega
    · have hrec := ih hac
      by_cases hma : a ∈ c :: v
      · by_cases hmv : a ∈ v
        · rw [List.filter_cons_of_neg (by simp [hma]), List.filter_cons_of_neg (by simp [hmv])]
          exact hrec
        · rw [List.filter_cons_of_neg (by simp [hma]), List.filter_cons_of_pos (by simp [hmv])]
          simp only [List.length_cons]
          omega
      · have hmv : a ∉ v := fun h => hma (List.mem_cons.mpr (Or.inr h))
        rw [List.filter_cons_of_pos (by simp [hma]), List.filter_cons_of_pos (by simp [hmv])]
        simp only [List.length_cons]
        omega

theorem bfsLoop_spec (edges : List Relationship) (root : String) :
    ∀ (fuel : Nat) (queue visited downstream : List String),
      BfsInv edges root queue visited downstream →
      bfsMeasure edges root queue visited < fuel →
      ∃ vF dF, bfsLoop edges fuel queue visited downstream = dF ∧
        BfsInv edges root [] vF dF := by
  intro fuel
  induction fuel with
  | zero => exact fun q v d _ hm => absurd hm (Nat.not_lt_zero _)
  | succ fuel ih =>
    intro q v d hinv hm
    rcases q with _ | ⟨c, rest⟩
    · exact ⟨v, d, rfl, hinv⟩
    · obtain ⟨i1, i2, i3, i4, i5, i6⟩ := hinv
      by_cases hc : c ∈ v
      · rw [bfsLoop, if_pos hc]
        apply ih rest v d
        · refine ⟨i1, fun x hx => i2 x (by simp [hx]), i3, ?_, ?_,
            fun x hx => i6 x (by simp [hx])⟩
          · intro x hx
            rcases i4 x hx with hxa | hxa
            · exact Or.inl hxa
            · rcases List.mem_cons.mp hxa with hxb | hxb
              · exact Or.inl (hxb ▸ hc)
              · exact Or.inr hxb
          · rcases i5 with hr | hr
            · exact Or.inl hr
            · rcases List.mem_cons.mp hr with hrb | hrb
              · exact Or.inl (hrb ▸ hc)
              · exact Or.inr hrb
        · rw [bfsMeasure] at hm ⊢
          rw [List.length_cons] at hm
          omega
      · have hstep : bfsLoop edges (fuel + 1) (c :: rest) v d =
            bfsLoop edges fuel
              (rest ++ (edges.filter
                (fun e => e.from_task == c && e.relation_type == RelationType.blocks)).map
                  Relationship.to_task)
              (c :: v)
              (d ++ (edges.filter
                (fun e => e.from_task == c && e.relation_type == RelationType.blocks)).map
                  Relationship.to_task) := by
          rw [bfsLoop, if_neg hc]
        rw [hstep]
        have hcd : c = root ∨ c ∈ d := i2 c (by simp)
        apply ih
        · refine ⟨?_, ?_, ?_, ?_, ?_, ?_⟩
          · intro x hx
            rcases List.mem_append.mp hx with hxa | hxa
            · exact i1 x hxa
            · have hstepx : blocksStep edges c x := (mem_blocksSucc edges c x).mp hxa
              rcases hcd with hcr | hcr
              · exact Relation.TransGen.single (hcr ▸ hstepx)
              · exact Relation.TransGen.tail (i1 c hcr) hstepx
          · intro x hx
            rcases List.mem_append.mp hx with hxa | hxa
            · exact (i2 x (by simp [hxa])).imp id (fun h => List.mem_append.mpr (Or.inl h))
            · exact Or.inr (List.mem_append.mpr (Or.inr hxa))
          · intro x hx e he hf hb
            rcases List.mem_cons.mp hx with hxa | hxa
            · refine List.mem_append.mpr (Or.inr ?_)
              refine (mem_blocksSucc edges c e.to_task).mpr ⟨e, he, ?_, hb, rfl⟩
              rw [hf, hxa]
            · exact List.mem_append.mpr (Or.inl (i3 x hxa e he hf hb))
          · intro x hx
            rcases List.mem_append.mp hx with hxa | hxa
            · rcases i4 x hxa with hxb | hxb
              · exact Or.inl (by simp [hxb])
              · rcases List.mem_cons.mp hxb with hxc | hxc
                · exact Or.inl (by simp [hxc])
                · exact Or.inr (List.mem_append.mpr (Or.inl hxc))
            · exact Or.inr (List.mem_append.mpr (Or.inr hxa))
          · rcases i5 with hr | hr
            · exact Or.inl (by simp [hr])
            · rcases List.mem_cons.mp hr with hrb | hrb
              · exact Or.inl (by simp [hrb])
              · exact Or.inr (List.mem_append.mpr (Or.inl hrb))
          · intro x hx
            rcases List.mem_append.mp hx with hxa | hxa
            · exact i6 x (by simp [hxa])
            · exact blocksSucc_subset_potential edges root c x hxa
        · have hlen := blocksSucc_length_le edges c
          have hfil := length_filter_not_mem_cons v c hc (bfsPotential edges root)
            (i6 c (by simp))
          rw [bfsMeasure] at hm ⊢
          rw [List.length_cons] at hm
          rw [List.length_append]
          have hmul : (edges.length + 1) *
              (((bfsPotential edges root).filter
                (fun x => decide (x ∉ c :: v))).length + 1) ≤
              (edges.length + 1) *
                ((bfsPotential edges root).filter (fun x => decide (x ∉ v))).length :=
            Nat.mul_le_mul_left _ hfil
          rw [Nat.mul_succ] at hmul
          omega

theorem bfsInv_final (edges : List Relationship) (root : String) (vF dF : List String)
    (h : BfsInv edges root [] vF dF) : ∀ y, y ∈ dF ↔ ReachBlocks edges root y := by
  obtain ⟨i1, _, i3, i4, i5, _⟩ := h
  have hroot : root ∈ vF := i5.resolve_right (List.not_mem_nil root)
  have hdv : ∀ x ∈ dF, x ∈ vF := fun x hx => (i4 x hx).resolve_right (List.not_mem_nil x)
  intro y
  constructor
  · exact i1 y
  · intro hr
    induction hr with
    | single h1 =>
      obtain ⟨e, he, hf, hb, ht⟩ := h1
      exact ht ▸ i3 root hroot e he hf hb
    | tail hab hbc ihab =>
      obtain ⟨e, he, hf, hb, ht⟩ := hbc
      exact ht ▸ i3 _ (hdv _ ihab) e he hf hb

/-!
C7.  GetDownstreamTasks(id) returns exactly the ids reachable from id along
outgoing `blocks` edges in one or more hops (the breadth-first transitive
closure), id itself included only when a cycle leads back to it; on the chain
a → b → c the result for a is {b, c}, and on the cycle a → b → c → a the
result for a also contains a itself.
-/

/-- C7: membership in get_downstream_tasks is exactly `blocks` reachability in
one or more hops, and on the concrete chain a → b, b → c the downstream set of
a is {b, c} (with the cycle store showing the id returning on a cycle). -/
theorem C7_get_downstream_tasks :
    (∀ (g : TaskGraph) (task_id y : String),
      y ∈ get_downstream_tasks g task_id ↔ ReachBlocks g.edges task_id y) ∧
    get_downstream_tasks gChain "a" = ["b", "c"] ∧
    get_downstream_tasks gCycle "a" = ["b", "c", "a"] := by
  refine ⟨?_, by decide, by decide⟩
  intro g task_id y
  have hinv : BfsInv g.edges task_id [task_id] [] [] := by
    refine ⟨by simp, by simp, by simp, by simp, Or.inr (by simp), ?_⟩
    intro x hx
    rw [List.mem_singleton.mp hx]
    exact List.mem_cons.mpr (Or.inl rfl)
  have hfil : ((bfsPotential g.edges task_id).filter
      (fun x => decide (x ∉ ([] : List String)))).length ≤ g.edges.length + 1 := by
    calc ((bfsPotential g.edges task_id).filter
        (fun x => decide (x ∉ ([] : List String)))).length ≤
          (bfsPotential g.edges task_id).length := List.length_filter_le _ _
      _ = g.edges.length + 1 := by simp [bfsPotential]
  have hmeas : bfsMeasure g.edges task_id [task_id] [] < bfsFuel g.edges := by
    rw [bfsMeasure, bfsFuel]
    have hmul : (g.edges.length + 1) *
        ((bfsPotential g.edges task_id).filter
          (fun x => decide (x ∉ ([] : List String)))).length ≤
        (g.edges.length + 1) * (g.edges.length + 1) :=
      Nat.mul_le_mul_left _ hfil
    simp only [List.length_singleton]
    omega
  obtain ⟨vF, dF, hrun, hfin⟩ :=
    bfsLoop_spec g.edges task_id (bfsFuel g.edges) [task_id] [] [] hinv hmeas
  rw [get_downstream_tasks, hrun]
  exact bfsInv_final g.edges task_id vF dF hfin y

/-- C7 witness: instantiating the reachability iff on the chain store shows
`c` is blocks-reachable from `a`. -/
theorem C7_get_downstream_tasks_witness :
    ReachBlocks gChain.edges "a" "c" :=
  (C7_get_downstream_tasks.1 gChain "a" "c").mp (by decide)

end Speculate
